import Mathlib

/-!
Verification of the offline-first access-control core of the Buro repository.

The development shallowly embeds the local IndexedDB store
(`src/services/indexed-db-service.ts`), its outbox of pending changes, and
the sync orchestrator (`src/services/sync-service.ts`).  IndexedDB object
stores become Lean lists kept in insertion order; auto-increment key
generators become explicit counters; `crypto.randomUUID()` becomes a fresh
counter; `Date.now()` becomes a wall-clock counter that advances whenever an
outbox entry is appended, so successive timestamps are distinct.  The remote
gateway (`server-api-service.ts`) is an external collaborator and is modelled
as an oracle deciding the outcome of each remote call.
-/

namespace Buro

/-- A room record (`Room` in `src/types/index.ts`). -/
structure Room where
  id : Nat
  number : String
  building : Nat
  floor : Nat
deriving DecidableEq

/-- An employee record (`Employee` in `src/types/index.ts`); `accessRooms`
is the denormalized list of room ids the employee may open, `badge` models
the external `employeeId` string field (renamed to avoid clashing with the
numeric `employeeId` foreign keys used by access rights). -/
structure Employee where
  id : Nat
  lastName : String
  firstName : String
  middleName : String
  badge : String
  accessRooms : List Nat
deriving DecidableEq

/-- An access-right row (`AccessRight` in `src/types/index.ts`); in the
store the auto-increment key is always present. -/
structure AccessRight where
  id : Nat
  employeeId : Nat
  roomId : Nat
deriving DecidableEq

/-- The `operation` discriminator of a pending change. -/
inductive Operation where
  | create
  | update
  | delete
  | grant
  | revoke
  | bulk
deriving DecidableEq

/-- The `entityType` discriminator of a pending change. -/
inductive EntityType where
  | room
  | employee
  | access
deriving DecidableEq

/-- The `data: any` payload attached to a pending change, one shape per
construction site in `indexed-db-service.ts`. -/
inductive ChangeData where
  | roomPayload (r : Room)
  | employeePayload (e : Employee)
  | deleteRoomPayload (id : Nat) (room : Option Room)
  | deleteEmployeePayload (id : Nat) (employee : Option Employee)
  | accessPayload (accessId : Nat) (employeeId : Nat) (roomId : Nat)
  | revokePayload (employeeId : Nat) (roomId : Nat)
  | bulkRoomsPayload (rs : List Room)
  | bulkEmployeesPayload (es : List Employee)
  | bulkAccessPayload (ars : List AccessRight)
deriving DecidableEq

/-- One outbox entry (`PendingChange` in `storage-service.ts`); `id` models
the client-generated UUID as a fresh counter value. -/
structure PendingChange where
  id : Nat
  timestamp : Nat
  operation : Operation
  entityType : EntityType
  data : ChangeData
deriving DecidableEq

/-- The state of the local IndexedDB database: the four object stores in
insertion order, the auto-increment key generators, the UUID source and the
wall clock. -/
structure DB where
  rooms : List Room
  employees : List Employee
  accessRights : List AccessRight
  pendingChanges : List PendingChange
  nextRoomId : Nat
  nextEmployeeId : Nat
  nextAccessId : Nat
  nextChangeId : Nat
  now : Nat
deriving DecidableEq

/-- JavaScript truthiness of an optional numeric argument: `undefined` and
`0` are both falsy, every other number is truthy. -/
def truthy : Option Nat → Bool
  | some n => n != 0
  | none => false

/-- `addPendingChange` (`indexed-db-service.ts:109`): append one outbox
entry with a fresh UUID and the current timestamp.  The clock advances past
the append. -/
def addPendingChange (op : Operation) (et : EntityType) (d : ChangeData)
    (s : DB) : DB :=
  let c : PendingChange :=
    { id := s.nextChangeId, timestamp := s.now, operation := op,
      entityType := et, data := d }
  { s with
      pendingChanges := s.pendingChanges ++ [c],
      nextChangeId := s.nextChangeId + 1,
      now := s.now + 1 }

/-- `getRooms` (`indexed-db-service.ts:127`): a truthy `buildingId` filters
by the `building` index, a falsy one returns the whole store. -/
def getRooms (buildingId : Option Nat) (s : DB) : List Room :=
  if truthy buildingId then
    s.rooms.filter (fun r => r.building == buildingId.getD 0)
  else
    s.rooms

/-- `getRoomById` (`indexed-db-service.ts:147`). -/
def getRoomById (roomId : Nat) (s : DB) : Option Room :=
  s.rooms.find? (fun r => r.id == roomId)

/-- `createRoom` (`indexed-db-service.ts:160`): `store.add` assigns the next
auto-increment key (the rooms store has no unique index, so the add always
succeeds), then one `create/room` outbox entry is appended. -/
def createRoom (number : String) (building floor : Nat) (s : DB) :
    Room × DB :=
  let newRoom : Room :=
    { id := s.nextRoomId, number := number, building := building,
      floor := floor }
  let s1 := { s with
      rooms := s.rooms ++ [newRoom],
      nextRoomId := s.nextRoomId + 1 }
  (newRoom,
   addPendingChange Operation.create EntityType.room
     (ChangeData.roomPayload newRoom) s1)

/-- IndexedDB `put` on the rooms store: replace the record with the same
key, or insert it (pushing the key generator past an explicit key). -/
def putRoom (r : Room) (s : DB) : DB :=
  if s.rooms.any (fun x => x.id == r.id) then
    { s with rooms := s.rooms.map (fun x => if x.id == r.id then r else x) }
  else
    { s with rooms := s.rooms ++ [r],
             nextRoomId := max s.nextRoomId (r.id + 1) }

/-- `updateRoom` (`indexed-db-service.ts:179`). -/
def updateRoom (r : Room) (s : DB) : Bool × DB :=
  (true,
   addPendingChange Operation.update EntityType.room
     (ChangeData.roomPayload r) (putRoom r s))

/-- `getEmployeeById` (`indexed-db-service.ts:271`). -/
def getEmployeeById (employeeId : Nat) (s : DB) : Option Employee :=
  s.employees.find? (fun e => e.id == employeeId)

/-- `getAccessRights` (`indexed-db-service.ts:370`): the dispatch is on
JavaScript truthiness of the two optional arguments — both truthy uses the
unique `(employeeId, roomId)` index, one truthy uses the corresponding
single-column index, neither returns the whole store. -/
def getAccessRights (roomId employeeId : Option Nat) (s : DB) :
    List AccessRight :=
  if truthy roomId && truthy employeeId then
    s.accessRights.filter
      (fun a => a.employeeId == employeeId.getD 0 && a.roomId == roomId.getD 0)
  else if truthy roomId then
    s.accessRights.filter (fun a => a.roomId == roomId.getD 0)
  else if truthy employeeId then
    s.accessRights.filter (fun a => a.employeeId == employeeId.getD 0)
  else
    s.accessRights

/-- `deleteRoom` (`indexed-db-service.ts:201`): snapshot the room, delete it
(IndexedDB `delete` succeeds whether or not the key exists), delete every
access right returned by `getAccessRights(roomId)` by its key, then append
one `delete/room` outbox entry and return `true`.  The employees store is
never touched. -/
def deleteRoom (roomId : Nat) (s : DB) : Bool × DB :=
  let room := getRoomById roomId s
  let s1 := { s with rooms := s.rooms.filter (fun r => r.id != roomId) }
  let doomedIds :=
    (getAccessRights (some roomId) none s1).map (fun a => a.id)
  let s2 := { s1 with
      accessRights :=
        s1.accessRights.filter (fun a => !(doomedIds.contains a.id)) }
  (true,
   addPendingChange Operation.delete EntityType.room
     (ChangeData.deleteRoomPayload roomId room) s2)

/-- `createEmployee` (`indexed-db-service.ts:284`): the employees store has
a unique index on the badge string, so the add rejects a duplicate badge
(the transaction error propagates to the caller); otherwise the next
auto-increment key is assigned and one `create/employee` entry appended. -/
def createEmployee (lastName firstName middleName badge : String)
    (accessRooms : List Nat) (s : DB) : Option (Employee × DB) :=
  if s.employees.any (fun e => e.badge == badge) then
    none
  else
    let newEmployee : Employee :=
      { id := s.nextEmployeeId, lastName := lastName, firstName := firstName,
        middleName := middleName, badge := badge, accessRooms := accessRooms }
    let s1 := { s with
        employees := s.employees ++ [newEmployee],
        nextEmployeeId := s.nextEmployeeId + 1 }
    some (newEmployee,
      addPendingChange Operation.create EntityType.employee
        (ChangeData.employeePayload newEmployee) s1)

/-- IndexedDB `put` on the employees store. -/
def putEmployee (e : Employee) (s : DB) : DB :=
  if s.employees.any (fun x => x.id == e.id) then
    { s with
        employees := s.employees.map (fun x => if x.id == e.id then e else x) }
  else
    { s with employees := s.employees ++ [e],
             nextEmployeeId := max s.nextEmployeeId (e.id + 1) }

/-- `updateEmployee` (`indexed-db-service.ts:310`). -/
def updateEmployee (e : Employee) (s : DB) : Bool × DB :=
  (true,
   addPendingChange Operation.update EntityType.employee
     (ChangeData.employeePayload e) (putEmployee e s))

/-- `deleteEmployee` (`indexed-db-service.ts:332`): symmetric to
`deleteRoom`, cascading over `getAccessRights(undefined, employeeId)`. -/
def deleteEmployee (employeeId : Nat) (s : DB) : Bool × DB :=
  let emp := getEmployeeById employeeId s
  let s1 := { s with
      employees := s.employees.filter (fun e => e.id != employeeId) }
  let doomedIds :=
    (getAccessRights none (some employeeId) s1).map (fun a => a.id)
  let s2 := { s1 with
      accessRights :=
        s1.accessRights.filter (fun a => !(doomedIds.contains a.id)) }
  (true,
   addPendingChange Operation.delete EntityType.employee
     (ChangeData.deleteEmployeePayload employeeId emp) s2)

/-- IndexedDB `add` on the access-rights store with an auto-increment key:
rejects when the unique `(employeeId, roomId)` index is violated. -/
def addAccessRightAuto (employeeId roomId : Nat) (s : DB) :
    Option (Nat × DB) :=
  if s.accessRights.any
      (fun a => a.employeeId == employeeId && a.roomId == roomId) then
    none
  else
    let aid := s.nextAccessId
    some (aid,
      { s with
          accessRights :=
            s.accessRights ++ [{ id := aid, employeeId := employeeId,
                                 roomId := roomId }],
          nextAccessId := aid + 1 })

/-- `grantAccess` (`indexed-db-service.ts:402`): early success if the pair
lookup is non-empty; otherwise insert the row, push the room id onto the
employee's `accessRooms` via `updateEmployee` (itself recording an outbox
entry) when the employee exists and does not already list the room, then
append the `grant/access` entry.  A failing insert is caught and reported
as `false` with nothing applied. -/
def grantAccess (employeeId roomId : Nat) (s : DB) : Bool × DB :=
  let existing := getAccessRights (some roomId) (some employeeId) s
  if existing.isEmpty then
    match addAccessRightAuto employeeId roomId s with
    | none => (false, s)
    | some (aid, s1) =>
      let s2 :=
        match getEmployeeById employeeId s1 with
        | some emp =>
          if emp.accessRooms.contains roomId then s1
          else
            (updateEmployee
              { emp with accessRooms := emp.accessRooms ++ [roomId] } s1).2
        | none => s1
      (true,
       addPendingChange Operation.grant EntityType.access
         (ChangeData.accessPayload aid employeeId roomId) s2)
  else
    (true, s)

/-- `revokeAccess` (`indexed-db-service.ts:444`): early success when the
pair lookup is empty; otherwise delete each found row by key, rewrite the
employee's `accessRooms` via `updateEmployee` (recording an outbox entry)
when the employee exists, then append the `revoke/access` entry. -/
def revokeAccess (employeeId roomId : Nat) (s : DB) : Bool × DB :=
  let rights := getAccessRights (some roomId) (some employeeId) s
  if rights.isEmpty then
    (true, s)
  else
    let doomedIds := rights.map (fun a => a.id)
    let s1 := { s with
        accessRights :=
          s.accessRights.filter (fun a => !(doomedIds.contains a.id)) }
    let s2 :=
      match getEmployeeById employeeId s1 with
      | some emp =>
        (updateEmployee
          { emp with accessRooms := emp.accessRooms.filter (fun i => i != roomId) }
          s1).2
      | none => s1
    (true,
     addPendingChange Operation.revoke EntityType.access
       (ChangeData.revokePayload employeeId roomId) s2)

/-- Sequential `add` of rooms carrying explicit keys inside one IndexedDB
transaction: the whole batch aborts if any key collides. -/
def addRoomsExplicit : List Room → List Room → Option (List Room)
  | [], acc => some acc
  | r :: rest, acc =>
    if acc.any (fun x => x.id == r.id) then none
    else addRoomsExplicit rest (acc ++ [r])

/-- Sequential `add` of employees carrying explicit keys: aborts on a key
collision or a violation of the unique badge index. -/
def addEmployeesExplicit : List Employee → List Employee → Option (List Employee)
  | [], acc => some acc
  | e :: rest, acc =>
    if acc.any (fun x => x.id == e.id || x.badge == e.badge) then none
    else addEmployeesExplicit rest (acc ++ [e])

/-- Sequential `add` of access rights carrying explicit keys: aborts on a
key collision or a violation of the unique `(employeeId, roomId)` index. -/
def addAccessExplicit : List AccessRight → List AccessRight → Option (List AccessRight)
  | [], acc => some acc
  | a :: rest, acc =>
    if acc.any (fun x =>
        x.id == a.id || (x.employeeId == a.employeeId && x.roomId == a.roomId)) then
      none
    else addAccessExplicit rest (acc ++ [a])

/-- The largest explicit key in a batch bumps the auto-increment generator. -/
def bumpKey (keys : List Nat) (gen : Nat) : Nat :=
  keys.foldl (fun m k => max m (k + 1)) gen

/-- `bulkImportRooms` (`indexed-db-service.ts:486`): all-or-nothing batch
add inside one transaction; on completion one `bulk/room` outbox entry is
recorded and the accepted count returned, on abort the promise rejects. -/
def bulkImportRooms (rs : List Room) (s : DB) : Option (Nat × DB) :=
  match addRoomsExplicit rs s.rooms with
  | none => none
  | some newRooms =>
    let s1 := { s with
        rooms := newRooms,
        nextRoomId := bumpKey (rs.map (fun r => r.id)) s.nextRoomId }
    some (rs.length,
      addPendingChange Operation.bulk EntityType.room
        (ChangeData.bulkRoomsPayload rs) s1)

/-- `bulkImportEmployees` (`indexed-db-service.ts:519`). -/
def bulkImportEmployees (es : List Employee) (s : DB) : Option (Nat × DB) :=
  match addEmployeesExplicit es s.employees with
  | none => none
  | some newEmployees =>
    let s1 := { s with
        employees := newEmployees,
        nextEmployeeId := bumpKey (es.map (fun e => e.id)) s.nextEmployeeId }
    some (es.length,
      addPendingChange Operation.bulk EntityType.employee
        (ChangeData.bulkEmployeesPayload es) s1)

/-- `bulkImportAccessRights` (`indexed-db-service.ts:555`). -/
def bulkImportAccessRights (ars : List AccessRight) (s : DB) :
    Option (Nat × DB) :=
  match addAccessExplicit ars s.accessRights with
  | none => none
  | some newAccess =>
    let s1 := { s with
        accessRights := newAccess,
        nextAccessId := bumpKey (ars.map (fun a => a.id)) s.nextAccessId }
    some (ars.length,
      addPendingChange Operation.bulk EntityType.access
        (ChangeData.bulkAccessPayload ars) s1)

/-- `getPendingChanges` (`indexed-db-service.ts:604`). -/
def getPendingChanges (s : DB) : List PendingChange :=
  s.pendingChanges

/-- `deletePendingChange` (`indexed-db-service.ts:619`): removing an absent
key is a silent no-op. -/
def deletePendingChange (id : Nat) (s : DB) : Bool × DB :=
  (true, { s with pendingChanges := s.pendingChanges.filter (fun c => c.id != id) })

/-!  The sync orchestrator (`src/services/sync-service.ts`).  The remote
gateway is the external boundary: each dispatched server call is reified as
a `RemoteCall` value and its outcome decided by an oracle
`remote : RemoteCall → Bool` (`true` = the awaited promise resolves,
`false` = it rejects). -/

/-- One call into the remote gateway, as dispatched by `processChange`
(`sync-service.ts:99`). -/
inductive RemoteCall where
  | createRoomCall (r : Room)
  | createEmployeeCall (e : Employee)
  | updateRoomCall (r : Room)
  | updateEmployeeCall (e : Employee)
  | deleteRoomCall (id : Nat)
  | deleteEmployeeCall (id : Nat)
  | grantAccessCall (employeeId roomId : Nat)
  | revokeAccessCall (employeeId roomId : Nat)
  | bulkRoomsCall (rs : List Room)
  | bulkEmployeesCall (es : List Employee)
  | bulkAccessCall (ars : List AccessRight)
deriving DecidableEq

/-- The `switch` of `processChange`: which server call a pending change
dispatches to; combinations with no matching branch fall through and make
no remote call at all. -/
def remoteCallOf (c : PendingChange) : Option RemoteCall :=
  match c.operation, c.entityType, c.data with
  | Operation.create, EntityType.room, ChangeData.roomPayload r =>
      some (RemoteCall.createRoomCall r)
  | Operation.create, EntityType.employee, ChangeData.employeePayload e =>
      some (RemoteCall.createEmployeeCall e)
  | Operation.update, EntityType.room, ChangeData.roomPayload r =>
      some (RemoteCall.updateRoomCall r)
  | Operation.update, EntityType.employee, ChangeData.employeePayload e =>
      some (RemoteCall.updateEmployeeCall e)
  | Operation.delete, EntityType.room, ChangeData.deleteRoomPayload i _ =>
      some (RemoteCall.deleteRoomCall i)
  | Operation.delete, EntityType.employee, ChangeData.deleteEmployeePayload i _ =>
      some (RemoteCall.deleteEmployeeCall i)
  | Operation.grant, EntityType.access, ChangeData.accessPayload _ e r =>
      some (RemoteCall.grantAccessCall e r)
  | Operation.revoke, EntityType.access, ChangeData.revokePayload e r =>
      some (RemoteCall.revokeAccessCall e r)
  | Operation.bulk, EntityType.room, ChangeData.bulkRoomsPayload rs =>
      some (RemoteCall.bulkRoomsCall rs)
  | Operation.bulk, EntityType.employee, ChangeData.bulkEmployeesPayload es =>
      some (RemoteCall.bulkEmployeesCall es)
  | Operation.bulk, EntityType.access, ChangeData.bulkAccessPayload ars =>
      some (RemoteCall.bulkAccessCall ars)
  | _, _, _ => none

/-- Whether `processChange` completes without throwing, given the remote
oracle: a change that dispatches no server call always completes. -/
def processChangeOk (remote : RemoteCall → Bool) (c : PendingChange) : Bool :=
  match remoteCallOf c with
  | some call => remote call
  | none => true

/-- The drain of `syncToServer`: changes are sorted by timestamp ascending
(`sync-service.ts:69`). -/
def sortByTs (l : List PendingChange) : List PendingChange :=
  List.insertionSort (fun a b => a.timestamp ≤ b.timestamp) l

/-- The per-entry loop of `syncToServer` (`sync-service.ts:72`): a change
whose replay succeeds is deleted from the outbox, a failing one is left in
place and processing continues. -/
def drainLoop (remote : RemoteCall → Bool) :
    List PendingChange → DB → DB
  | [], db => db
  | c :: rest, db =>
    if processChangeOk remote c then
      drainLoop remote rest (deletePendingChange c.id db).2
    else
      drainLoop remote rest db

/-- The orchestrator's state: the local database plus the in-memory
`isSyncing` mutual-exclusion flag and the `lastSyncTime` marker. -/
structure SyncState where
  db : DB
  isSyncing : Bool
  lastSyncTime : Nat
deriving DecidableEq

/-- `syncToServer` (`sync-service.ts:50`): bail out with `false` when
offline or already syncing; an empty outbox is an immediate `true`;
otherwise drain the sorted outbox, stamp `lastSyncTime`, and return
`true` even when individual entries failed. -/
def syncToServer (online : Bool) (remote : RemoteCall → Bool)
    (s : SyncState) : Bool × SyncState :=
  if !online || s.isSyncing then
    (false, s)
  else
    let changes := sortByTs (getPendingChanges s.db)
    if changes.isEmpty then
      (true, { s with isSyncing := false })
    else
      let db1 := drainLoop remote changes s.db
      (true, { db := db1, isSyncing := false, lastSyncTime := db1.now })

/-- The room stage of `syncFromServer`: a non-empty fetched set is bulk
imported; an error during the import is caught and leaves the database as
it was. -/
def roomsStage (rooms : List Room) (db : DB) : DB :=
  if rooms.isEmpty then db
  else
    match bulkImportRooms rooms db with
    | some (_, d) => d
    | none => db

/-- The employee stage of `syncFromServer`. -/
def employeesStage (employees : List Employee) (db : DB) : DB :=
  if employees.isEmpty then db
  else
    match bulkImportEmployees employees db with
    | some (_, d) => d
    | none => db

/-- The access-right stage of `syncFromServer`. -/
def accessStage (accessRights : List AccessRight) (db : DB) : DB :=
  if accessRights.isEmpty then db
  else
    match bulkImportAccessRights accessRights db with
    | some (_, d) => d
    | none => db

/-- `syncFromServer` (`sync-service.ts:157`): each remote fetch is wrapped
in its own failure boundary (`none` = the fetch threw, which the catch
turns into an empty array); each non-empty fetched set is imported through
its own failure boundary; `lastSyncTime` is stamped when at least one
fetched array was non-empty. -/
def syncFromServer (online : Bool)
    (fetchRooms : Option (List Room))
    (fetchEmployees : Option (List Employee))
    (fetchAccess : Option (List AccessRight))
    (s : SyncState) : Bool × SyncState :=
  if !online || s.isSyncing then
    (false, s)
  else
    let rooms := fetchRooms.getD []
    let employees := fetchEmployees.getD []
    let accessRights := fetchAccess.getD []
    let db3 := accessStage accessRights (employeesStage employees (roomsStage rooms s.db))
    let lst :=
      if rooms.isEmpty && employees.isEmpty && accessRights.isEmpty then
        s.lastSyncTime
      else
        db3.now
    (true, { db := db3, isSyncing := false, lastSyncTime := lst })

/-! Concrete states used to exercise the operations. -/

/-- A freshly installed empty database. -/
def emptyDB : DB :=
  { rooms := [], employees := [], accessRights := [], pendingChanges := [],
    nextRoomId := 1, nextEmployeeId := 1, nextAccessId := 1,
    nextChangeId := 1, now := 100 }

/-- Room 101 in building 1. -/
def roomA : Room := { id := 1, number := "101", building := 1, floor := 1 }

/-- An employee holding access to room 1. -/
def empA : Employee :=
  { id := 1, lastName := "Ivanov", firstName := "Ivan", middleName := "I",
    badge := "EMP001", accessRooms := [1] }

/-- The same employee without any access. -/
def empB : Employee := { empA with accessRooms := [] }

/-- The access-right row pairing employee 1 with room 1. -/
def arA : AccessRight := { id := 1, employeeId := 1, roomId := 1 }

/-- A consistent database: one room, one employee whose `accessRooms`
mirrors the single access-right row. -/
def dbC1 : DB :=
  { emptyDB with
      rooms := [roomA], employees := [empA], accessRights := [arA],
      nextRoomId := 2, nextEmployeeId := 2, nextAccessId := 2 }

/-- The same consistent database, used for the cascade claims. -/
def dbC2 : DB :=
  { emptyDB with
      rooms := [roomA], employees := [empA], accessRights := [arA],
      nextRoomId := 2, nextEmployeeId := 2, nextAccessId := 2 }

/-- One room and one employee with no access yet. -/
def dbC4 : DB :=
  { emptyDB with
      rooms := [roomA], employees := [empB],
      nextRoomId := 2, nextEmployeeId := 2 }

/-- The spec's consistency invariant: every employee's `accessRooms`
equals, as a set, the room ids of the access-right rows carrying that
employee's id. -/
def accessInvariantHolds (s : DB) : Bool :=
  s.employees.all (fun e =>
    e.accessRooms.all (fun r =>
      s.accessRights.any (fun a => a.employeeId == e.id && a.roomId == r)) &&
    (s.accessRights.filter (fun a => a.employeeId == e.id)).all
      (fun a => e.accessRooms.contains a.roomId))

/-- C1: the claim says the `accessRooms`/`AccessRight` agreement holds
after every completed grant/revoke/reconcile/delete operation.  The code
violates it: `deleteRoom` removes the cascading access-right rows but never
touches the employees store, so deleting room 1 of a consistent database
leaves the stale room id in the employee's `accessRooms`. -/
theorem deleteRoom_breaks_accessRooms_invariant :
    accessInvariantHolds dbC1 = true ∧
    (deleteRoom 1 dbC1).1 = true ∧
    (deleteRoom 1 dbC1).2.accessRights = [] ∧
    (deleteRoom 1 dbC1).2.employees.map (fun e => e.accessRooms) = [[1]] ∧
    accessInvariantHolds (deleteRoom 1 dbC1).2 = false := by decide

/-- From a list whose mapped image is duplicate-free, the mapping is
injective on the list's members. -/
theorem nodup_map_inj {α β : Type} {f : α → β} {l : List α}
    (h : (l.map f).Nodup) :
    ∀ a ∈ l, ∀ b ∈ l, f a = f b → a = b := by
  induction l with
  | nil => intro a ha; cases ha
  | cons x t ih =>
    rw [List.map_cons, List.nodup_cons] at h
    intro a ha b hb hf
    rcases List.mem_cons.mp ha with ha1 | ha2
    · rcases List.mem_cons.mp hb with hb1 | hb2
      · rw [ha1, hb1]
      · subst ha1
        exact absurd (by rw [hf]; exact List.mem_map_of_mem f hb2) h.1
    · rcases List.mem_cons.mp hb with hb1 | hb2
      · subst hb1
        exact absurd (by rw [← hf]; exact List.mem_map_of_mem f ha2) h.1
      · exact ih h.2 a ha2 b hb2 hf

/-- Membership of a key in the keys of the rows a filter selects decides
the filter itself, provided keys are unique. -/
theorem contains_filter_map_id {l : List AccessRight} {p : AccessRight → Bool}
    (h : (l.map (fun a => a.id)).Nodup) {a : AccessRight} (ha : a ∈ l) :
    ((l.filter p).map (fun x => x.id)).contains a.id = p a := by
  cases hpa : p a with
  | true =>
    have hmem : a.id ∈ (l.filter p).map (fun x => x.id) :=
      List.mem_map_of_mem _ (List.mem_filter.mpr ⟨ha, hpa⟩)
    simp [List.contains, List.elem_eq_mem, hmem]
  | false =>
    have hnot : a.id ∉ (l.filter p).map (fun x => x.id) := by
      intro hmem
      rcases List.mem_map.mp hmem with ⟨b, hb, hid⟩
      have hbl : b ∈ l := (List.mem_filter.mp hb).1
      have hbp : p b = true := (List.mem_filter.mp hb).2
      have hba : b = a := nodup_map_inj h b hbl a ha hid
      rw [hba] at hbp
      rw [hbp] at hpa
      cases hpa
    simp [List.contains, List.elem_eq_mem, hnot]

/-- Deleting, by key, exactly the rows selected by a filter is the same as
keeping the rows the filter rejects, provided keys are unique. -/
theorem filter_not_mem_ids {l : List AccessRight} {p : AccessRight → Bool}
    (h : (l.map (fun a => a.id)).Nodup) :
    l.filter
        (fun a => !(((l.filter p).map (fun x => x.id)).contains a.id))
      = l.filter (fun a => !(p a)) := by
  apply List.filter_congr
  intro a ha
  rw [contains_filter_map_id h ha]

/-- C2 counterexample: `deleteRoom` on an id with no stored Room returns
success rather than failing with `NotFoundError`, and `deleteRoom` on a
present room leaves the deleted room id inside the employee's
`accessRooms`. -/
theorem deleteRoom_claim_counterexample :
    ((deleteRoom 5 dbC2).1 = true ∧ (deleteRoom 5 dbC2).2.rooms = dbC2.rooms) ∧
    ((deleteRoom 1 dbC2).1 = true ∧
     (deleteRoom 1 dbC2).2.employees.map (fun e => e.accessRooms) = [[1]]) := by
  decide

/-- C2 amended: `deleteRoom(id)` returns success whether or not the Room
exists; it removes the Room row (if present) and every AccessRight row
whose `roomId` equals `id`, appends exactly one outbox entry, and leaves
the employees store — including every `accessRooms` list — unchanged. -/
theorem deleteRoom_behaviour (roomId : Nat) (s : DB)
    (h0 : roomId ≠ 0)
    (hids : (s.accessRights.map (fun a => a.id)).Nodup) :
    (deleteRoom roomId s).1 = true ∧
    (deleteRoom roomId s).2.rooms = s.rooms.filter (fun r => r.id != roomId) ∧
    (deleteRoom roomId s).2.accessRights
      = s.accessRights.filter (fun a => a.roomId != roomId) ∧
    (deleteRoom roomId s).2.employees = s.employees ∧
    (deleteRoom roomId s).2.pendingChanges.length
      = s.pendingChanges.length + 1 := by
  refine ⟨rfl, ?_, ?_, ?_, ?_⟩
  · simp [deleteRoom, addPendingChange]
  · have key := filter_not_mem_ids (l := s.accessRights)
      (p := fun a => a.roomId == roomId) hids
    simp only [deleteRoom, addPendingChange, getAccessRights, truthy]
    simp only [show (roomId != 0) = true by simp [h0], Bool.true_and,
      Bool.and_false, Bool.false_and, if_false, if_true, Option.getD_some]
    simpa [bne] using key
  · simp [deleteRoom, addPendingChange]
  · simp [deleteRoom, addPendingChange]

/-- C2 amended, witness. -/
theorem deleteRoom_behaviour_witness :
    (deleteRoom 1 dbC2).1 = true ∧
    (deleteRoom 1 dbC2).2.rooms = dbC2.rooms.filter (fun r => r.id != 1) ∧
    (deleteRoom 1 dbC2).2.accessRights
      = dbC2.accessRights.filter (fun a => a.roomId != 1) ∧
    (deleteRoom 1 dbC2).2.employees = dbC2.employees ∧
    (deleteRoom 1 dbC2).2.pendingChanges.length
      = dbC2.pendingChanges.length + 1 :=
  deleteRoom_behaviour 1 dbC2 (by decide) (by decide)

/-- C3 counterexample: creating room `(number := "101", building := 1)`
twice succeeds both times — there is no `(number, building)` uniqueness
check and no `ConflictError` — and the outbox afterwards holds two pending
entries, not one. -/
theorem createRoom_duplicate_counterexample :
    ((createRoom "101" 1 1 ((createRoom "101" 1 1 emptyDB).2)).2.rooms.filter
        (fun r => r.number == "101" && r.building == 1)).length = 2 ∧
    (createRoom "101" 1 1 ((createRoom "101" 1 1 emptyDB).2)).2.pendingChanges.length
      = 2 := by decide

/-- C3 amended: `createRoom` performs no duplicate check at all — every
request, duplicate `(number, building)` or not, is assigned the next fresh
id, appended to the rooms store, returned, and recorded as exactly one new
outbox entry. -/
theorem createRoom_always_succeeds (number : String) (building floor : Nat)
    (s : DB) :
    (createRoom number building floor s).1
      = { id := s.nextRoomId, number := number, building := building,
          floor := floor } ∧
    (createRoom number building floor s).2.rooms
      = s.rooms ++ [(createRoom number building floor s).1] ∧
    (createRoom number building floor s).2.nextRoomId = s.nextRoomId + 1 ∧
    (createRoom number building floor s).2.pendingChanges.length
      = s.pendingChanges.length + 1 := by
  simp [createRoom, addPendingChange]

/-- C4 counterexample: a single successful mutating call — `grantAccess`
on a fresh pair — leaves two entries in the pending store, not one: the
nested `updateEmployee` records an `update/employee` entry in addition to
the `grant/access` entry. -/
theorem single_grant_records_two_entries :
    (grantAccess 1 1 dbC4).1 = true ∧
    (grantAccess 1 1 dbC4).2.pendingChanges.length = 2 ∧
    (grantAccess 1 1 dbC4).2.pendingChanges.map (fun c => c.operation)
      = [Operation.update, Operation.grant] := by decide

/-- C7: revoking a pair for which no AccessRight row exists returns
success and leaves the whole database — rooms, employees, access rights,
outbox, counters and clock — untouched. -/
theorem revokeAccess_nonexistent_noop (e r : Nat) (s : DB)
    (he : e ≠ 0) (hr : r ≠ 0)
    (hpair : s.accessRights.filter
        (fun a => a.employeeId == e && a.roomId == r) = []) :
    revokeAccess e r s = (true, s) := by
  unfold revokeAccess getAccessRights truthy
  simp [he, hr, hpair]

/-- C7 witness: employee 1 holds no right on room 2 in `dbC1`. -/
theorem revokeAccess_nonexistent_noop_witness :
    revokeAccess 1 2 dbC1 = (true, dbC1) :=
  revokeAccess_nonexistent_noop 1 2 dbC1 (by decide) (by decide) (by decide)

/-- C10: an id argument equal to `0` is falsy, exactly like an absent
argument: `getAccessRights` with a zero room id filters only by employee,
with a zero employee id filters only by room, with both zero returns the
full relation, and `getRooms 0` returns every room. -/
theorem zero_id_treated_as_absent (s : DB) (eid rid : Nat)
    (he : eid ≠ 0) (hr : rid ≠ 0) :
    getAccessRights (some 0) (some eid) s
        = getAccessRights none (some eid) s ∧
    getAccessRights (some 0) (some eid) s
        = s.accessRights.filter (fun a => a.employeeId == eid) ∧
    getAccessRights (some rid) (some 0) s
        = getAccessRights (some rid) none s ∧
    getAccessRights (some rid) (some 0) s
        = s.accessRights.filter (fun a => a.roomId == rid) ∧
    getAccessRights (some 0) (some 0) s = s.accessRights ∧
    getRooms (some 0) s = s.rooms := by
  unfold getAccessRights getRooms truthy
  simp [he, hr]

/-- Replacing, in place, the employee record whose key a `find?` located
makes the same `find?` return the replacement. -/
theorem find_replace {l : List Employee} {e : Nat} {emp emp2 : Employee}
    (hfind : l.find? (fun x => x.id == e) = some emp)
    (hide : emp.id = e) (hid : emp2.id = emp.id) :
    (l.map (fun x => if x.id == emp.id then emp2 else x)).find?
        (fun x => x.id == e) = some emp2 := by
  rw [List.find?_map]
  have hpred :
      ((fun x => x.id == e) ∘ (fun x => if x.id == emp.id then emp2 else x))
        = (fun x : Employee => x.id == e) := by
    funext x
    by_cases hx : x.id = emp.id
    · simp [Function.comp, hx, hide, hid]
    · simp [Function.comp, hx]
  rw [hpred, hfind]
  simp

/-- The full effect of an effective `grantAccess` on a state where the pair
is absent and the employee exists without the room listed: the access row
is inserted with the next key, the employee record is rewritten with the
room appended, and two outbox entries are recorded — the nested
`update/employee` entry first, then the `grant/access` entry. -/
theorem grantAccess_effective (e r : Nat) (s : DB) (emp : Employee)
    (he : e ≠ 0) (hr : r ≠ 0)
    (hfind : getEmployeeById e s = some emp)
    (hpair : s.accessRights.filter
        (fun a => a.employeeId == e && a.roomId == r) = [])
    (hmem : r ∉ emp.accessRooms) :
    grantAccess e r s =
      (true,
       { rooms := s.rooms,
         employees := s.employees.map
           (fun x => if x.id == emp.id then
              { emp with accessRooms := emp.accessRooms ++ [r] } else x),
         accessRights :=
           s.accessRights ++ [{ id := s.nextAccessId, employeeId := e, roomId := r }],
         pendingChanges := s.pendingChanges ++
           [{ id := s.nextChangeId, timestamp := s.now,
              operation := Operation.update, entityType := EntityType.employee,
              data := ChangeData.employeePayload
                { emp with accessRooms := emp.accessRooms ++ [r] } },
            { id := s.nextChangeId + 1, timestamp := s.now + 1,
              operation := Operation.grant, entityType := EntityType.access,
              data := ChangeData.accessPayload s.nextAccessId e r }],
         nextRoomId := s.nextRoomId,
         nextEmployeeId := s.nextEmployeeId,
         nextAccessId := s.nextAccessId + 1,
         nextChangeId := s.nextChangeId + 2,
         now := s.now + 2 }) := by
  have hfind' : s.employees.find? (fun x => x.id == e) = some emp := hfind
  have hex : getAccessRights (some r) (some e) s = [] := by
    unfold getAccessRights truthy
    simp only [show (r != 0) = true by simp [hr],
      show (e != 0) = true by simp [he], Bool.and_self, if_true,
      Option.getD_some]
    exact hpair
  have hany : s.accessRights.any
      (fun a => a.employeeId == e && a.roomId == r) = false :=
    List.any_eq_false.mpr (List.filter_eq_nil_iff.mp hpair)
  have hany2 : s.employees.any (fun x => x.id == emp.id) = true :=
    List.any_eq_true.mpr ⟨emp, List.mem_of_find?_eq_some hfind, by simp⟩
  unfold grantAccess addAccessRightAuto getEmployeeById updateEmployee
    putEmployee addPendingChange
  rw [hex]
  simp [hany, hany2, hfind', List.contains, List.elem_eq_mem, hmem]

/-- `grantAccess` on a pair whose lookup is non-empty is an early success
that changes nothing. -/
theorem grantAccess_already (e r : Nat) (s : DB)
    (h : (getAccessRights (some r) (some e) s).isEmpty = false) :
    grantAccess e r s = (true, s) := by
  simp only [grantAccess]
  rw [h]
  simp

/-- C6: granting the same `(employee, room)` pair twice from a consistent
state produces exactly one AccessRight row for the pair and lists the room
exactly once in the employee's `accessRooms`; the second call returns
success and changes nothing at all. -/
theorem grantAccess_idempotent (e r : Nat) (s : DB) (emp : Employee)
    (he : e ≠ 0) (hr : r ≠ 0)
    (hfind : getEmployeeById e s = some emp)
    (hpair : s.accessRights.filter
        (fun a => a.employeeId == e && a.roomId == r) = [])
    (hcount : emp.accessRooms.count r = 0) :
    (grantAccess e r s).1 = true ∧
    (grantAccess e r (grantAccess e r s).2).1 = true ∧
    (grantAccess e r (grantAccess e r s).2).2 = (grantAccess e r s).2 ∧
    ((grantAccess e r (grantAccess e r s).2).2.accessRights.filter
        (fun a => a.employeeId == e && a.roomId == r)).length = 1 ∧
    ∃ emp2,
      getEmployeeById e (grantAccess e r (grantAccess e r s).2).2 = some emp2 ∧
      emp2.accessRooms.count r = 1 := by
  have hmem : r ∉ emp.accessRooms := List.count_eq_zero.mp hcount
  have hempid : emp.id = e := by
    have := List.find?_some hfind
    simpa using this
  have hG := grantAccess_effective e r s emp he hr hfind hpair hmem
  have hfilterG : (grantAccess e r s).2.accessRights.filter
      (fun a => a.employeeId == e && a.roomId == r)
      = [{ id := s.nextAccessId, employeeId := e, roomId := r }] := by
    rw [hG]
    simp only [List.filter_append, hpair, List.nil_append]
    simp
  have hnonempty : (getAccessRights (some r) (some e)
      (grantAccess e r s).2).isEmpty = false := by
    unfold getAccessRights truthy
    simp only [show (r != 0) = true by simp [hr],
      show (e != 0) = true by simp [he], Bool.and_self, if_true,
      Option.getD_some]
    rw [hfilterG]
    rfl
  have hG2 := grantAccess_already e r (grantAccess e r s).2 hnonempty
  refine ⟨by rw [hG], by rw [hG2], by rw [hG2], ?_, ?_⟩
  · rw [hG2]
    simp only [hfilterG, List.length_cons, List.length_nil]
  · refine ⟨{ emp with accessRooms := emp.accessRooms ++ [r] }, ?_, ?_⟩
    · rw [hG2, hG]
      unfold getEmployeeById
      exact find_replace hfind hempid rfl
    · simp [hcount]

/-- C6 witness: granting `(employee 1, room 1)` twice on the fresh state. -/
theorem grantAccess_idempotent_witness :
    (grantAccess 1 1 dbC4).1 = true ∧
    (grantAccess 1 1 (grantAccess 1 1 dbC4).2).1 = true ∧
    (grantAccess 1 1 (grantAccess 1 1 dbC4).2).2 = (grantAccess 1 1 dbC4).2 ∧
    ((grantAccess 1 1 (grantAccess 1 1 dbC4).2).2.accessRights.filter
        (fun a => a.employeeId == 1 && a.roomId == 1)).length = 1 ∧
    ∃ emp2,
      getEmployeeById 1 (grantAccess 1 1 (grantAccess 1 1 dbC4).2).2 = some emp2 ∧
      emp2.accessRooms.count 1 = 1 :=
  grantAccess_idempotent 1 1 dbC4 empB (by decide) (by decide) (by decide)
    (by decide) (by decide)

/-- C10 witness. -/
theorem zero_id_treated_as_absent_witness :
    getAccessRights (some 0) (some 1) dbC1
        = getAccessRights none (some 1) dbC1 ∧
    getAccessRights (some 0) (some 1) dbC1
        = dbC1.accessRights.filter (fun a => a.employeeId == 1) ∧
    getAccessRights (some 1) (some 0) dbC1
        = getAccessRights (some 1) none dbC1 ∧
    getAccessRights (some 1) (some 0) dbC1
        = dbC1.accessRights.filter (fun a => a.roomId == 1) ∧
    getAccessRights (some 0) (some 0) dbC1 = dbC1.accessRights ∧
    getRooms (some 0) dbC1 = dbC1.rooms :=
  zero_id_treated_as_absent dbC1 1 1 (by decide) (by decide)

/-! Sync-orchestrator theorems. -/

/-- A remote gateway whose every call succeeds. -/
def remoteAllOk : RemoteCall → Bool := fun _ => true

/-- A remote gateway rejecting exactly the grant of pair `(1, 1)`. -/
def remoteFailGrant : RemoteCall → Bool :=
  fun c => !(c == RemoteCall.grantAccessCall 1 1)

/-- A pending room creation, first in the outbox. -/
def pc1 : PendingChange :=
  { id := 1, timestamp := 10, operation := Operation.create,
    entityType := EntityType.room, data := ChangeData.roomPayload roomA }

/-- A pending grant of pair `(1, 1)`, second in the outbox. -/
def pc2 : PendingChange :=
  { id := 2, timestamp := 11, operation := Operation.grant,
    entityType := EntityType.access, data := ChangeData.accessPayload 1 1 1 }

/-- A pending revocation, third in the outbox. -/
def pc3 : PendingChange :=
  { id := 3, timestamp := 12, operation := Operation.revoke,
    entityType := EntityType.access, data := ChangeData.revokePayload 1 2 }

/-- An orchestrator state whose outbox holds the three entries above. -/
def stOutbox3 : SyncState :=
  { db := { emptyDB with pendingChanges := [pc1, pc2, pc3], nextChangeId := 4 },
    isSyncing := false, lastSyncTime := 0 }

/-- C8: `syncToServer` returns `false` and leaves the state untouched — no
outbox entry is processed — whenever the client is offline or another sync
cycle is in progress; and it returns `true` whenever it runs online with no
cycle in progress and a non-empty outbox, whatever the oracle answers for
the individual replays. -/
theorem syncToServer_guard (online : Bool) (remote : RemoteCall → Bool)
    (s : SyncState) :
    (online = false ∨ s.isSyncing = true →
      syncToServer online remote s = (false, s)) ∧
    (online = true → s.isSyncing = false → s.db.pendingChanges ≠ [] →
      (syncToServer online remote s).1 = true) := by
  constructor
  · intro h
    unfold syncToServer
    rcases h with h | h <;> simp [h]
  · intro h1 h2 _
    unfold syncToServer
    simp only [h1, h2, Bool.not_true, Bool.or_false, Bool.false_eq_true,
      if_false]
    cases hc : (sortByTs (getPendingChanges s.db)).isEmpty <;> simp [hc]

/-- C8 witness: offline is a no-op, and online with the three-entry outbox
returns `true`. -/
theorem syncToServer_guard_witness :
    syncToServer false remoteAllOk stOutbox3 = (false, stOutbox3) ∧
    (syncToServer true remoteAllOk stOutbox3).1 = true :=
  ⟨(syncToServer_guard false remoteAllOk stOutbox3).1 (Or.inl rfl),
   (syncToServer_guard true remoteAllOk stOutbox3).2 rfl rfl (by decide)⟩

/-- Boolean inequality of naturals is symmetric in its arguments. -/
theorem bne_comm_nat (a b : Nat) : (a != b) = !(b == a) := by
  by_cases h : a = b
  · subst h
    simp
  · have h1 : (a == b) = false := by simpa using h
    have h2 : (b == a) = false := by simpa using Ne.symm h
    simp [bne, h1, h2]

/-- The outbox left behind by the drain loop: an entry is removed exactly
when some processed change with its id replayed successfully. -/
theorem drainLoop_pendingChanges (remote : RemoteCall → Bool)
    (cs : List PendingChange) (db : DB) :
    (drainLoop remote cs db).pendingChanges =
      db.pendingChanges.filter
        (fun x => !(cs.any (fun c => processChangeOk remote c && c.id == x.id))) := by
  induction cs generalizing db with
  | nil => simp [drainLoop]
  | cons c rest ih =>
    unfold drainLoop
    cases hok : processChangeOk remote c with
    | true =>
      simp only [if_true]
      rw [ih]
      simp only [deletePendingChange, List.filter_filter]
      apply List.filter_congr
      intro x _
      rw [List.any_cons, hok, Bool.not_or, Bool.true_and, Bool.and_comm,
        bne_comm_nat]
    | false =>
      simp only [Bool.false_eq_true, if_false]
      rw [ih]
      apply List.filter_congr
      intro x _
      simp [hok]

/-- C5: when `syncToServer` actually drains (online, not already syncing),
the outbox afterwards holds exactly the entries whose remote replay failed,
in their stored order — every succeeding entry is discarded, every failing
entry is left queued, and processing continues past failures. -/
theorem syncToServer_partial_failure (remote : RemoteCall → Bool)
    (s : SyncState)
    (h1 : s.isSyncing = false)
    (h2 : (s.db.pendingChanges.map (fun c => c.id)).Nodup) :
    (syncToServer true remote s).1 = true ∧
    (syncToServer true remote s).2.db.pendingChanges =
      s.db.pendingChanges.filter (fun c => !(processChangeOk remote c)) := by
  have hperm : List.Perm (sortByTs s.db.pendingChanges) s.db.pendingChanges :=
    List.perm_insertionSort _ s.db.pendingChanges
  unfold syncToServer
  simp only [h1, Bool.not_true, Bool.or_false, Bool.false_eq_true, if_false]
  cases hc : (sortByTs (getPendingChanges s.db)).isEmpty with
  | true =>
    have hnil : sortByTs (getPendingChanges s.db) = [] :=
      List.isEmpty_iff.mp hc
    have hpnil : s.db.pendingChanges = [] := by
      have := hperm
      rw [show sortByTs s.db.pendingChanges = sortByTs (getPendingChanges s.db) from rfl,
        hnil] at this
      exact (this.nil_eq).symm
    simp [hc, hpnil]
  | false =>
    simp only [hc, Bool.false_eq_true, if_false]
    refine ⟨by trivial, ?_⟩
    rw [drainLoop_pendingChanges]
    apply List.filter_congr
    intro x hx
    have hpoint : ((sortByTs (getPendingChanges s.db)).any
        (fun c => processChangeOk remote c && c.id == x.id))
          = processChangeOk remote x := by
      cases hokx : processChangeOk remote x with
      | true =>
        apply List.any_eq_true.mpr
        exact ⟨x, hperm.mem_iff.mpr hx, by simp [hokx]⟩
      | false =>
        apply List.any_eq_false.mpr
        intro c hc2 hcontra
        have hcok : processChangeOk remote c = true :=
          (Bool.and_eq_true_iff.mp hcontra).1
        have hcid : c.id = x.id := by
          have := (Bool.and_eq_true_iff.mp hcontra).2
          simpa using this
        have hcp : c ∈ s.db.pendingChanges := hperm.mem_iff.mp hc2
        have : c = x := nodup_map_inj h2 c hcp x hx hcid
        rw [this] at hcok
        rw [hcok] at hokx
        cases hokx
    rw [hpoint]

/-- C5 witness: of the three-entry outbox only entry 2's grant fails, so
entries 1 and 3 are discarded and entry 2 stays queued; a later retry with
a healthy gateway discards entry 2 as well. -/
theorem syncToServer_partial_failure_witness :
    ((syncToServer true remoteFailGrant stOutbox3).1 = true ∧
     (syncToServer true remoteFailGrant stOutbox3).2.db.pendingChanges =
       stOutbox3.db.pendingChanges.filter
         (fun c => !(processChangeOk remoteFailGrant c))) ∧
    ((syncToServer true remoteAllOk
        (syncToServer true remoteFailGrant stOutbox3).2).1 = true ∧
     (syncToServer true remoteAllOk
        (syncToServer true remoteFailGrant stOutbox3).2).2.db.pendingChanges =
       (syncToServer true remoteFailGrant stOutbox3).2.db.pendingChanges.filter
         (fun c => !(processChangeOk remoteAllOk c))) :=
  ⟨syncToServer_partial_failure remoteFailGrant stOutbox3 rfl (by decide),
   syncToServer_partial_failure remoteAllOk
     (syncToServer true remoteFailGrant stOutbox3).2 (by decide) (by decide)⟩

/-! Snapshot-pull theorems. -/

/-- An empty room fetch skips the room stage. -/
theorem roomsStage_nil (rs : List Room) (db : DB) (h : rs.isEmpty = true) :
    roomsStage rs db = db := by
  unfold roomsStage
  simp [h]

/-- An empty employee fetch skips the employee stage. -/
theorem employeesStage_nil (es : List Employee) (db : DB)
    (h : es.isEmpty = true) :
    employeesStage es db = db := by
  unfold employeesStage
  simp [h]

/-- An empty access fetch skips the access stage. -/
theorem accessStage_nil (ars : List AccessRight) (db : DB)
    (h : ars.isEmpty = true) :
    accessStage ars db = db := by
  unfold accessStage
  simp [h]

/-- The room stage never touches the employees store. -/
theorem roomsStage_employees (rs : List Room) (db : DB) :
    (roomsStage rs db).employees = db.employees := by
  unfold roomsStage bulkImportRooms
  cases hrs : rs.isEmpty with
  | true => simp
  | false =>
    simp only [Bool.false_eq_true, if_false]
    cases h : addRoomsExplicit rs db.rooms with
    | none => simp
    | some l => simp [addPendingChange]

/-- The room stage never touches the access-rights store. -/
theorem roomsStage_accessRights (rs : List Room) (db : DB) :
    (roomsStage rs db).accessRights = db.accessRights := by
  unfold roomsStage bulkImportRooms
  cases hrs : rs.isEmpty with
  | true => simp
  | false =>
    simp only [Bool.false_eq_true, if_false]
    cases h : addRoomsExplicit rs db.rooms with
    | none => simp
    | some l => simp [addPendingChange]

/-- The employee stage never touches the rooms store. -/
theorem employeesStage_rooms (es : List Employee) (db : DB) :
    (employeesStage es db).rooms = db.rooms := by
  unfold employeesStage bulkImportEmployees
  cases hes : es.isEmpty with
  | true => simp
  | false =>
    simp only [Bool.false_eq_true, if_false]
    cases h : addEmployeesExplicit es db.employees with
    | none => simp
    | some l => simp [addPendingChange]

/-- The employee stage never touches the access-rights store. -/
theorem employeesStage_accessRights (es : List Employee) (db : DB) :
    (employeesStage es db).accessRights = db.accessRights := by
  unfold employeesStage bulkImportEmployees
  cases hes : es.isEmpty with
  | true => simp
  | false =>
    simp only [Bool.false_eq_true, if_false]
    cases h : addEmployeesExplicit es db.employees with
    | none => simp
    | some l => simp [addPendingChange]

/-- The access stage never touches the rooms store. -/
theorem accessStage_rooms (ars : List AccessRight) (db : DB) :
    (accessStage ars db).rooms = db.rooms := by
  unfold accessStage bulkImportAccessRights
  cases hars : ars.isEmpty with
  | true => simp
  | false =>
    simp only [Bool.false_eq_true, if_false]
    cases h : addAccessExplicit ars db.accessRights with
    | none => simp
    | some l => simp [addPendingChange]

/-- The access stage never touches the employees store. -/
theorem accessStage_employees (ars : List AccessRight) (db : DB) :
    (accessStage ars db).employees = db.employees := by
  unfold accessStage bulkImportAccessRights
  cases hars : ars.isEmpty with
  | true => simp
  | false =>
    simp only [Bool.false_eq_true, if_false]
    cases h : addAccessExplicit ars db.accessRights with
    | none => simp
    | some l => simp [addPendingChange]

/-- What the room stage leaves in the rooms store. -/
theorem roomsStage_rooms (rs : List Room) (db : DB) :
    (roomsStage rs db).rooms =
      (if rs.isEmpty then db.rooms
       else match addRoomsExplicit rs db.rooms with
            | some l => l
            | none => db.rooms) := by
  unfold roomsStage bulkImportRooms
  cases hrs : rs.isEmpty with
  | true => simp
  | false =>
    simp only [Bool.false_eq_true, if_false]
    cases h : addRoomsExplicit rs db.rooms with
    | none => simp [h]
    | some l => simp [h, addPendingChange]

/-- What the employee stage leaves in the employees store. -/
theorem employeesStage_employees (es : List Employee) (db : DB) :
    (employeesStage es db).employees =
      (if es.isEmpty then db.employees
       else match addEmployeesExplicit es db.employees with
            | some l => l
            | none => db.employees) := by
  unfold employeesStage bulkImportEmployees
  cases hes : es.isEmpty with
  | true => simp
  | false =>
    simp only [Bool.false_eq_true, if_false]
    cases h : addEmployeesExplicit es db.employees with
    | none => simp [h]
    | some l => simp [h, addPendingChange]

/-- What the access stage leaves in the access-rights store. -/
theorem accessStage_accessRights (ars : List AccessRight) (db : DB) :
    (accessStage ars db).accessRights =
      (if ars.isEmpty then db.accessRights
       else match addAccessExplicit ars db.accessRights with
            | some l => l
            | none => db.accessRights) := by
  unfold accessStage bulkImportAccessRights
  cases hars : ars.isEmpty with
  | true => simp
  | false =>
    simp only [Bool.false_eq_true, if_false]
    cases h : addAccessExplicit ars db.accessRights with
    | none => simp [h]
    | some l => simp [h, addPendingChange]

/-- An orchestrator state over the consistent one-room database. -/
def stC9 : SyncState := { db := dbC1, isSyncing := false, lastSyncTime := 0 }

/-- A second employee, importable next to `empA`. -/
def empC9 : Employee :=
  { id := 2, lastName := "Petrov", firstName := "Petr", middleName := "P",
    badge := "EMP002", accessRooms := [1] }

/-- A second access-right row, importable next to `arA`. -/
def arC9 : AccessRight := { id := 2, employeeId := 2, roomId := 1 }

/-- C9 counterexample: the remote room fetch returns a room whose id
collides with a stored room, so the local bulk import aborts and the whole
database is bit-for-bit unchanged — no entity type was imported — yet
`lastSyncTime` is still updated (from 0 to the current clock), because the
code stamps it whenever a fetched array was non-empty, not whenever an
actual import happened. -/
theorem syncFromServer_lastSync_counterexample :
    (syncFromServer true (some [roomA]) none none stC9).2.db = stC9.db ∧
    (syncFromServer true (some [roomA]) none none stC9).2.lastSyncTime = 100 ∧
    stC9.lastSyncTime = 0 := by decide

/-- C9 amended: each of the three fetches and each of the three imports is
isolated — a failed or empty fetch leaves that entity type's store
untouched while a successfully fetched non-empty set is still handed to its
own bulk import — and `lastSyncTime` is updated exactly when at least one
fetch returned a non-empty array, even if every local import of that data
failed and nothing was actually imported. -/
theorem syncFromServer_isolation (s : SyncState)
    (fr : Option (List Room)) (fe : Option (List Employee))
    (fa : Option (List AccessRight))
    (h : s.isSyncing = false) :
    (syncFromServer true fr fe fa s).1 = true ∧
    ((fr.getD []).isEmpty = true →
      (syncFromServer true fr fe fa s).2.db.rooms = s.db.rooms) ∧
    ((fr.getD []).isEmpty = false →
      (syncFromServer true fr fe fa s).2.db.rooms =
        (match addRoomsExplicit (fr.getD []) s.db.rooms with
         | some l => l
         | none => s.db.rooms)) ∧
    ((fe.getD []).isEmpty = true →
      (syncFromServer true fr fe fa s).2.db.employees = s.db.employees) ∧
    ((fe.getD []).isEmpty = false →
      (syncFromServer true fr fe fa s).2.db.employees =
        (match addEmployeesExplicit (fe.getD []) s.db.employees with
         | some l => l
         | none => s.db.employees)) ∧
    ((fa.getD []).isEmpty = true →
      (syncFromServer true fr fe fa s).2.db.accessRights = s.db.accessRights) ∧
    ((fa.getD []).isEmpty = false →
      (syncFromServer true fr fe fa s).2.db.accessRights =
        (match addAccessExplicit (fa.getD []) s.db.accessRights with
         | some l => l
         | none => s.db.accessRights)) ∧
    ((fr.getD []).isEmpty = true ∧ (fe.getD []).isEmpty = true ∧
        (fa.getD []).isEmpty = true →
      (syncFromServer true fr fe fa s).2.lastSyncTime = s.lastSyncTime) ∧
    (¬((fr.getD []).isEmpty = true ∧ (fe.getD []).isEmpty = true ∧
        (fa.getD []).isEmpty = true) →
      (syncFromServer true fr fe fa s).2.lastSyncTime
        = (syncFromServer true fr fe fa s).2.db.now) := by
  unfold syncFromServer
  simp only [h, Bool.not_true, Bool.or_false, Bool.false_eq_true, if_false]
  refine ⟨by trivial, ?_, ?_, ?_, ?_, ?_, ?_, ?_, ?_⟩
  · intro hemp
    simp only [accessStage_rooms, employeesStage_rooms,
      roomsStage_nil (fr.getD []) s.db hemp]
  · intro hne
    simp only [accessStage_rooms, employeesStage_rooms, roomsStage_rooms, hne,
      Bool.false_eq_true, if_false]
  · intro hemp
    simp only [accessStage_employees,
      employeesStage_nil (fe.getD []) (roomsStage (fr.getD []) s.db) hemp,
      roomsStage_employees]
  · intro hne
    simp only [accessStage_employees, employeesStage_employees, hne,
      Bool.false_eq_true, if_false, roomsStage_employees]
  · intro hemp
    simp only [accessStage_nil (fa.getD [])
        (employeesStage (fe.getD []) (roomsStage (fr.getD []) s.db)) hemp,
      employeesStage_accessRights, roomsStage_accessRights]
  · intro hne
    simp only [accessStage_accessRights, hne, Bool.false_eq_true, if_false,
      employeesStage_accessRights, roomsStage_accessRights]
  · intro hall
    simp only [hall.1, hall.2.1, hall.2.2, Bool.and_self, if_true]
  · intro hne
    have hcond : ((fr.getD []).isEmpty && (fe.getD []).isEmpty &&
        (fa.getD []).isEmpty) = false := by
      cases h1 : (fr.getD ([] : List Room)).isEmpty <;>
        cases h2 : (fe.getD ([] : List Employee)).isEmpty <;>
          cases h3 : (fa.getD ([] : List AccessRight)).isEmpty <;>
            simp_all
    simp only [hcond, Bool.false_eq_true, if_false]

/-- C9 amended, witness: room fetch throws, employee and access fetches
return importable non-empty sets over the consistent state. -/
theorem syncFromServer_isolation_witness :
    (syncFromServer true none (some [empC9]) (some [arC9]) stC9).1 = true ∧
    (syncFromServer true none (some [empC9]) (some [arC9]) stC9).2.db.rooms
      = stC9.db.rooms ∧
    (syncFromServer true none (some [empC9]) (some [arC9]) stC9).2.db.employees
      = (match addEmployeesExplicit [empC9] stC9.db.employees with
         | some l => l
         | none => stC9.db.employees) ∧
    (syncFromServer true none (some [empC9]) (some [arC9]) stC9).2.db.accessRights
      = (match addAccessExplicit [arC9] stC9.db.accessRights with
         | some l => l
         | none => stC9.db.accessRights) ∧
    (syncFromServer true none (some [empC9]) (some [arC9]) stC9).2.lastSyncTime
      = (syncFromServer true none (some [empC9]) (some [arC9]) stC9).2.db.now := by
  obtain ⟨h1, h2, h3, h4, h5, h6, h7, h8, h9⟩ :=
    syncFromServer_isolation stC9 none (some [empC9]) (some [arC9]) rfl
  exact ⟨h1, h2 (by decide), h5 (by decide), h7 (by decide), h9 (by decide)⟩

/-! Outbox-discipline machinery: the per-call and trace-level accounting of
pending changes. -/

/-- One mutating call into the local store. -/
inductive MutCall where
  | createRoomCall (number : String) (building floor : Nat)
  | updateRoomCall (r : Room)
  | deleteRoomCall (roomId : Nat)
  | createEmployeeCall (lastName firstName middleName badge : String)
      (accessRooms : List Nat)
  | updateEmployeeCall (e : Employee)
  | deleteEmployeeCall (employeeId : Nat)
  | grantCall (employeeId roomId : Nat)
  | revokeCall (employeeId roomId : Nat)
  | bulkRoomsCall (rs : List Room)
  | bulkEmployeesCall (es : List Employee)
  | bulkAccessCall (ars : List AccessRight)
deriving DecidableEq

/-- Execute one call against the store; a rejected call (duplicate badge,
bulk key collision, duplicate pair insert) leaves the state unchanged. -/
def execCall (c : MutCall) (s : DB) : DB :=
  match c with
  | MutCall.createRoomCall n b f => (createRoom n b f s).2
  | MutCall.updateRoomCall r => (updateRoom r s).2
  | MutCall.deleteRoomCall i => (deleteRoom i s).2
  | MutCall.createEmployeeCall ln fn mn badge acc =>
    match createEmployee ln fn mn badge acc s with
    | some (_, s1) => s1
    | none => s
  | MutCall.updateEmployeeCall e => (updateEmployee e s).2
  | MutCall.deleteEmployeeCall i => (deleteEmployee i s).2
  | MutCall.grantCall e r => (grantAccess e r s).2
  | MutCall.revokeCall e r => (revokeAccess e r s).2
  | MutCall.bulkRoomsCall rs =>
    match bulkImportRooms rs s with
    | some (_, s1) => s1
    | none => s
  | MutCall.bulkEmployeesCall es =>
    match bulkImportEmployees es s with
    | some (_, s1) => s1
    | none => s
  | MutCall.bulkAccessCall ars =>
    match bulkImportAccessRights ars s with
    | some (_, s1) => s1
    | none => s

/-- How many outbox entries one call appends, read off the pre-state:
create/update/delete/bulk record one each (zero when rejected), an
effective grant whose employee exists and lacks the room records two — the
nested employee update plus its own — and a no-op grant or revoke records
none; an effective revoke records two when the employee exists. -/
def callChangeCount (c : MutCall) (s : DB) : Nat :=
  match c with
  | MutCall.createRoomCall _ _ _ => 1
  | MutCall.updateRoomCall _ => 1
  | MutCall.deleteRoomCall _ => 1
  | MutCall.createEmployeeCall _ _ _ badge _ =>
    if s.employees.any (fun e => e.badge == badge) then 0 else 1
  | MutCall.updateEmployeeCall _ => 1
  | MutCall.deleteEmployeeCall _ => 1
  | MutCall.grantCall e r =>
    if (getAccessRights (some r) (some e) s).isEmpty then
      if s.accessRights.any (fun a => a.employeeId == e && a.roomId == r) then 0
      else
        match s.employees.find? (fun x => x.id == e) with
        | some emp => if emp.accessRooms.contains r then 1 else 2
        | none => 1
    else 0
  | MutCall.revokeCall e r =>
    if (getAccessRights (some r) (some e) s).isEmpty then 0
    else
      match s.employees.find? (fun x => x.id == e) with
      | some _ => 2
      | none => 1
  | MutCall.bulkRoomsCall rs =>
    match addRoomsExplicit rs s.rooms with
    | some _ => 1
    | none => 0
  | MutCall.bulkEmployeesCall es =>
    match addEmployeesExplicit es s.employees with
    | some _ => 1
    | none => 0
  | MutCall.bulkAccessCall ars =>
    match addAccessExplicit ars s.accessRights with
    | some _ => 1
    | none => 0

/-- Execute a sequence of calls in order. -/
def execTrace : List MutCall → DB → DB
  | [], s => s
  | c :: rest, s => execTrace rest (execCall c s)

/-- The number of outbox entries a sequence of calls appends. -/
def traceChangeCount : List MutCall → DB → Nat
  | [], _ => 0
  | c :: rest, s => callChangeCount c s + traceChangeCount rest (execCall c s)

/-- Well-formed outbox clock: timestamps strictly increase in store order
and all lie in the past of the wall clock. -/
def TsOk (s : DB) : Prop :=
  s.pendingChanges.Pairwise (fun a b => a.timestamp < b.timestamp) ∧
  ∀ c ∈ s.pendingChanges, c.timestamp < s.now

/-- The state `t` extends `s` by appending exactly the entries `cs`, whose
timestamps all lie between the two clocks and strictly increase. -/
def NewEntries (s t : DB) (cs : List PendingChange) : Prop :=
  t.pendingChanges = s.pendingChanges ++ cs ∧
  s.now ≤ t.now ∧
  (∀ c ∈ cs, s.now ≤ c.timestamp ∧ c.timestamp < t.now) ∧
  cs.Pairwise (fun a b => a.timestamp < b.timestamp)

/-- A step that touches neither the outbox nor the clock appends nothing. -/
theorem newEntries_nil {s t : DB}
    (h1 : t.pendingChanges = s.pendingChanges) (h2 : t.now = s.now) :
    NewEntries s t [] :=
  ⟨by simp [h1], le_of_eq h2.symm, by simp, List.Pairwise.nil⟩

/-- Appended-entry accounting composes. -/
theorem newEntries_trans {s1 s2 s3 : DB} {cs ds : List PendingChange}
    (h1 : NewEntries s1 s2 cs) (h2 : NewEntries s2 s3 ds) :
    NewEntries s1 s3 (cs ++ ds) := by
  obtain ⟨p1, n1, b1, w1⟩ := h1
  obtain ⟨p2, n2, b2, w2⟩ := h2
  refine ⟨?_, le_trans n1 n2, ?_, ?_⟩
  · rw [p2, p1, List.append_assoc]
  · intro c hc
    rcases List.mem_append.mp hc with hc | hc
    · exact ⟨(b1 c hc).1, lt_of_lt_of_le (b1 c hc).2 n2⟩
    · exact ⟨le_trans n1 (b2 c hc).1, (b2 c hc).2⟩
  · refine List.pairwise_append.mpr ⟨w1, w2, ?_⟩
    intro a ha b hb
    exact lt_of_lt_of_le (b1 a ha).2 (b2 b hb).1

/-- `addPendingChange` on top of a prelude that touches neither the outbox
nor the clock appends exactly one entry stamped with the current clock. -/
theorem newEntries_add (op : Operation) (et : EntityType) (d : ChangeData)
    {s s1 : DB}
    (h1 : s1.pendingChanges = s.pendingChanges) (h2 : s1.now = s.now) :
    NewEntries s (addPendingChange op et d s1)
      [{ id := s1.nextChangeId, timestamp := s1.now, operation := op,
         entityType := et, data := d }] := by
  unfold addPendingChange
  refine ⟨by simp [h1], ?_, ?_, by simp⟩
  · show s.now ≤ s1.now + 1
    omega
  · intro c hc
    simp only [List.mem_singleton] at hc
    subst hc
    show s.now ≤ s1.now ∧ s1.now < s1.now + 1
    omega

/-- Appending well-stamped entries preserves the clock invariant. -/
theorem tsOk_newEntries {s t : DB} {cs : List PendingChange}
    (h : TsOk s) (hn : NewEntries s t cs) : TsOk t := by
  obtain ⟨hp, hb⟩ := h
  obtain ⟨p, n, b, w⟩ := hn
  constructor
  · rw [p]
    refine List.pairwise_append.mpr ⟨hp, w, ?_⟩
    intro a ha c hc
    exact lt_of_lt_of_le (hb a ha) (b c hc).1
  · intro c hc
    rw [p] at hc
    rcases List.mem_append.mp hc with hc | hc
    · exact lt_of_lt_of_le (hb c hc) n
    · exact (b c hc).2

/-- A well-clocked outbox is already sorted by timestamp. -/
theorem sortByTs_of_tsOk {s : DB} (h : TsOk s) :
    sortByTs s.pendingChanges = s.pendingChanges :=
  List.Sorted.insertionSort_eq
    (List.Pairwise.imp (fun hab => le_of_lt hab) h.1)

/-- `putRoom` does not touch the outbox. -/
theorem putRoom_pendingChanges (r : Room) (s : DB) :
    (putRoom r s).pendingChanges = s.pendingChanges := by
  unfold putRoom
  split <;> rfl

/-- `putRoom` does not touch the clock. -/
theorem putRoom_now (r : Room) (s : DB) : (putRoom r s).now = s.now := by
  unfold putRoom
  split <;> rfl

/-- `putEmployee` does not touch the outbox. -/
theorem putEmployee_pendingChanges (e : Employee) (s : DB) :
    (putEmployee e s).pendingChanges = s.pendingChanges := by
  unfold putEmployee
  split <;> rfl

/-- `putEmployee` does not touch the clock. -/
theorem putEmployee_now (e : Employee) (s : DB) :
    (putEmployee e s).now = s.now := by
  unfold putEmployee
  split <;> rfl

/-- Two stacked `addPendingChange`s on top of a prelude that touches
neither the outbox nor the clock append exactly two entries, consecutively
stamped. -/
theorem newEntries_add_add (op1 : Operation) (et1 : EntityType)
    (d1 : ChangeData) (op2 : Operation) (et2 : EntityType) (d2 : ChangeData)
    {s s1 : DB}
    (h1 : s1.pendingChanges = s.pendingChanges) (h2 : s1.now = s.now) :
    NewEntries s
      (addPendingChange op2 et2 d2 (addPendingChange op1 et1 d1 s1))
      ([{ id := s1.nextChangeId, timestamp := s1.now, operation := op1,
          entityType := et1, data := d1 }] ++
       [{ id := s1.nextChangeId + 1, timestamp := s1.now + 1,
          operation := op2, entityType := et2, data := d2 }]) :=
  newEntries_trans (newEntries_add op1 et1 d1 h1 h2)
    (newEntries_add op2 et2 d2 rfl rfl)

/-- Per-call accounting: every call appends exactly the entries the
pre-state predicts — in particular an effective grant or revoke appends
two, and a rejected or no-op call appends none. -/
theorem execCall_newEntries (c : MutCall) (s : DB) :
    ∃ cs, NewEntries s (execCall c s) cs ∧ cs.length = callChangeCount c s := by
  cases c with
  | createRoomCall n b f =>
    exact ⟨_, newEntries_add _ _ _ rfl rfl, rfl⟩
  | updateRoomCall r =>
    exact ⟨_, newEntries_add _ _ _ (putRoom_pendingChanges r s)
      (putRoom_now r s), rfl⟩
  | deleteRoomCall i =>
    exact ⟨_, newEntries_add _ _ _ rfl rfl, rfl⟩
  | createEmployeeCall ln fn mn badge acc =>
    simp only [execCall, createEmployee, callChangeCount]
    cases hdup : s.employees.any (fun e => e.badge == badge) with
    | true =>
      simp only [if_true]
      exact ⟨[], newEntries_nil rfl rfl, rfl⟩
    | false =>
      simp only [Bool.false_eq_true, if_false]
      exact ⟨_, newEntries_add _ _ _ rfl rfl, rfl⟩
  | updateEmployeeCall e =>
    exact ⟨_, newEntries_add _ _ _ (putEmployee_pendingChanges e s)
      (putEmployee_now e s), rfl⟩
  | deleteEmployeeCall i =>
    exact ⟨_, newEntries_add _ _ _ rfl rfl, rfl⟩
  | grantCall e r =>
    simp only [execCall, grantAccess, callChangeCount]
    cases hex : (getAccessRights (some r) (some e) s).isEmpty with
    | false =>
      simp only [Bool.false_eq_true, if_false]
      exact ⟨[], newEntries_nil rfl rfl, rfl⟩
    | true =>
      simp only [if_true]
      simp only [addAccessRightAuto]
      cases hany : s.accessRights.any
          (fun a => a.employeeId == e && a.roomId == r) with
      | true =>
        simp only [if_true]
        exact ⟨[], newEntries_nil rfl rfl, rfl⟩
      | false =>
        simp only [Bool.false_eq_true, if_false, getEmployeeById]
        cases hfind : s.employees.find? (fun x => x.id == e) with
        | none =>
          simp only [hfind]
          exact ⟨_, newEntries_add _ _ _ rfl rfl, rfl⟩
        | some emp =>
          simp only [hfind]
          cases hcont : emp.accessRooms.contains r with
          | true =>
            simp only [if_true]
            exact ⟨_, newEntries_add _ _ _ rfl rfl, rfl⟩
          | false =>
            simp only [Bool.false_eq_true, if_false, updateEmployee]
            exact ⟨_, newEntries_add_add _ _ _ _ _ _
              (putEmployee_pendingChanges _ _) (putEmployee_now _ _), rfl⟩
  | revokeCall e r =>
    simp only [execCall, revokeAccess, callChangeCount]
    cases hex : (getAccessRights (some r) (some e) s).isEmpty with
    | true =>
      simp only [if_true]
      exact ⟨[], newEntries_nil rfl rfl, rfl⟩
    | false =>
      simp only [Bool.false_eq_true, if_false, getEmployeeById]
      cases hfind : s.employees.find? (fun x => x.id == e) with
      | none =>
        simp only [hfind]
        exact ⟨_, newEntries_add _ _ _ rfl rfl, rfl⟩
      | some emp =>
        simp only [hfind, updateEmployee]
        exact ⟨_, newEntries_add_add _ _ _ _ _ _
          (putEmployee_pendingChanges _ _) (putEmployee_now _ _), rfl⟩
  | bulkRoomsCall rs =>
    simp only [execCall, bulkImportRooms, callChangeCount]
    cases h : addRoomsExplicit rs s.rooms with
    | none =>
      simp only [h]
      exact ⟨[], newEntries_nil rfl rfl, rfl⟩
    | some l =>
      simp only [h]
      exact ⟨_, newEntries_add _ _ _ rfl rfl, rfl⟩
  | bulkEmployeesCall es =>
    simp only [execCall, bulkImportEmployees, callChangeCount]
    cases h : addEmployeesExplicit es s.employees with
    | none =>
      simp only [h]
      exact ⟨[], newEntries_nil rfl rfl, rfl⟩
    | some l =>
      simp only [h]
      exact ⟨_, newEntries_add _ _ _ rfl rfl, rfl⟩
  | bulkAccessCall ars =>
    simp only [execCall, bulkImportAccessRights, callChangeCount]
    cases h : addAccessExplicit ars s.accessRights with
    | none =>
      simp only [h]
      exact ⟨[], newEntries_nil rfl rfl, rfl⟩
    | some l =>
      simp only [h]
      exact ⟨_, newEntries_add _ _ _ rfl rfl, rfl⟩

/-- C4 amended: every successful mutating call appends its outbox entries
at the end of the pending store in call order with strictly increasing
timestamps, so draining by timestamp ascending yields the original call
order; but the total is not one per call: it is the sum of the per-call
counts, where create/update/delete/bulk contribute one each, an effective
grant or revoke contributes two (the nested employee update records its own
entry), and a no-op or rejected call contributes none. -/
theorem outbox_discipline (calls : List MutCall) (s : DB) (h : TsOk s) :
    ∃ added : List PendingChange,
      (execTrace calls s).pendingChanges = s.pendingChanges ++ added ∧
      added.length = traceChangeCount calls s ∧
      TsOk (execTrace calls s) ∧
      sortByTs (execTrace calls s).pendingChanges
        = (execTrace calls s).pendingChanges := by
  induction calls generalizing s with
  | nil =>
    exact ⟨[], by simp [execTrace], by simp [traceChangeCount, execTrace], h,
      sortByTs_of_tsOk h⟩
  | cons c rest ih =>
    obtain ⟨cs, hn, hlen⟩ := execCall_newEntries c s
    have h1 : TsOk (execCall c s) := tsOk_newEntries h hn
    obtain ⟨added, ha, hl, ht, hs⟩ := ih (execCall c s) h1
    refine ⟨cs ++ added, ?_, ?_, ht, hs⟩
    · show (execTrace rest (execCall c s)).pendingChanges = _
      rw [ha, hn.1, List.append_assoc]
    · show (cs ++ added).length
        = callChangeCount c s + traceChangeCount rest (execCall c s)
      rw [List.length_append, hlen, hl]

/-- A sample trace: create a room and an employee, then an effective grant
followed by an effective revoke. -/
def traceW : List MutCall :=
  [MutCall.createRoomCall "101" 1 1,
   MutCall.createEmployeeCall "Ivanov" "Ivan" "I" "EMP001" [],
   MutCall.grantCall 1 1,
   MutCall.revokeCall 1 1]

/-- C4 amended, witness: the four-call trace appends six entries (one, one,
two, two), in call order. -/
theorem outbox_discipline_witness :
    TsOk emptyDB ∧
    ∃ added : List PendingChange,
      (execTrace traceW emptyDB).pendingChanges
        = emptyDB.pendingChanges ++ added ∧
      added.length = traceChangeCount traceW emptyDB ∧
      TsOk (execTrace traceW emptyDB) ∧
      sortByTs (execTrace traceW emptyDB).pendingChanges
        = (execTrace traceW emptyDB).pendingChanges :=
  ⟨⟨by decide, by decide⟩, outbox_discipline traceW emptyDB ⟨by decide, by decide⟩⟩

end Buro
